import Mathlib

/-
Verification of the `let_declaration` grammar rule of garritfra/antimony
(src/grammar.js).

The source is:

  let_declaration: function(tokens) \x7b
    let expression = [tokens.shift()];
    do \x7b
      token = tokens.shift();
      expression.push(token);
    \x7d while (!["EOF", "\n"].includes(token));
    return \x7b type: "let_declaration", name: "x", value: 5 \x7d;
  \x7d

Embedding notes:
- A JavaScript `Array.prototype.shift()` on a list `ts` yields `ts.head?`
  (`none` models `undefined`, the result of shifting an empty array) and
  leaves `ts.tail` (shifting an empty array leaves it empty).
- `token` on line 5 of the source is an undeclared identifier, hence a
  write to a global variable; we carry it in the program state `PState`
  next to the token array. `none` models an `undefined` global.
- The do-while loop is modelled fuel-indexed by `loopRun`: `none` means
  the loop has not exited within `fuel` iterations. The loop body has no
  exit other than its condition, so `loopRun fuel ... = none` for every
  `fuel` is exactly non-termination of the source loop.
-/

namespace Grammar

/-- The terminator kinds of the loop condition `["EOF", "\n"].includes(token)`. -/
def terminators : List String := ["EOF", "\n"]

/-- `["EOF", "\n"].includes(token)` where `token` may be `undefined` (`none`):
`Array.prototype.includes` finds `undefined` in this array never. -/
def isTerm : Option String → Bool
  | some t => terminators.contains t
  | none => false

/-- The record returned on line 8 of the source. -/
structure DeclarationNode where
  type : String
  name : String
  value : Nat
  deriving DecidableEq

/-- The mutable state the function touches: the caller-owned token array
and the global variable `token` assigned on line 5. -/
structure PState where
  tokens : List String
  token : Option String
  deriving DecidableEq

/-- The fixed node literal of line 8. -/
def letNode : DeclarationNode := ⟨"let_declaration", "x", 5⟩

/-- The do-while loop of lines 4-7, fuel-indexed. Each iteration shifts
the front token (possibly `undefined`), writes it to the global `token`,
pushes it onto the local `expression` array, and exits when it is a
terminator. `none` means the loop did not exit within `fuel` iterations. -/
def loopRun : Nat → List (Option String) → PState → Option (List (Option String) × PState)
  | 0, _, _ => none
  | fuel + 1, expr, s =>
    let t := s.tokens.head?
    let s' : PState := ⟨s.tokens.tail, t⟩
    let expr' := expr ++ [t]
    if isTerm t then some (expr', s') else loopRun fuel expr' s'

/-- The rule `let_declaration` of lines 2-9. Line 3 shifts the head token
into the local `expression` array (without touching the global `token`),
then the loop runs, then the fixed node is returned. The local
`expression` is discarded by the source, hence discarded here. -/
def let_declaration (fuel : Nat) (s : PState) : Option (DeclarationNode × PState) :=
  let expression : List (Option String) := [s.tokens.head?]
  let s1 : PState := ⟨s.tokens.tail, s.token⟩
  match loopRun fuel expression s1 with
  | none => none
  | some (_, s2) => some (letNode, s2)

/-- On an exhausted array the loop shifts `undefined` forever: it exits
within no fuel bound. -/
theorem loopRun_nil (fuel : Nat) : ∀ expr g, loopRun fuel expr ⟨[], g⟩ = none := by
  induction fuel with
  | zero => intro expr g; rfl
  | succ n ih =>
    intro expr g
    simp only [loopRun, List.head?_nil, List.tail_nil, isTerm]
    exact ih _ _

/-- If no token of the array is a terminator, the loop exits within no
fuel bound (the source loops unboundedly). -/
theorem loopRun_noTerm : ∀ (fuel : Nat) (ts : List String) expr g,
    (∀ t ∈ ts, isTerm (some t) = false) → loopRun fuel expr ⟨ts, g⟩ = none := by
  intro fuel
  induction fuel with
  | zero => intro ts expr g _; rfl
  | succ n ih =>
    intro ts expr g hts
    cases ts with
    | nil =>
      simp only [loopRun, List.head?_nil, List.tail_nil, isTerm]
      exact loopRun_nil n _ _
    | cons t ts' =>
      have ht : isTerm (some t) = false := hts t (by simp)
      simp only [loopRun, List.head?_cons, List.tail_cons, ht, if_neg, Bool.false_eq_true,
        not_false_eq_true]
      exact ih ts' _ _ (fun x hx => hts x (by simp [hx]))

/-- Running the loop over a terminator-free block `body` followed by a
terminator `term`: the loop consumes `body` and `term`, leaves `rest`,
and the global `token` ends as `term`. -/
theorem loopRun_run : ∀ (body : List String) (fuel : Nat), body.length + 1 ≤ fuel →
    ∀ (term : String) (rest : List String), (∀ t ∈ body, isTerm (some t) = false) →
    isTerm (some term) = true → ∀ expr g,
    loopRun fuel expr ⟨body ++ term :: rest, g⟩ =
      some (expr ++ (body.map some ++ [some term]), ⟨rest, some term⟩) := by
  intro body
  induction body with
  | nil =>
    intro fuel hfuel term rest _ hterm expr g
    cases fuel with
    | zero => omega
    | succ n =>
      simp only [List.nil_append, loopRun, List.head?_cons, List.tail_cons, hterm, if_pos]
      simp
  | cons t ts ih =>
    intro fuel hfuel term rest hbody hterm expr g
    cases fuel with
    | zero => simp at hfuel
    | succ n =>
      have ht : isTerm (some t) = false := hbody t (by simp)
      simp only [List.cons_append, loopRun, List.head?_cons, List.tail_cons, ht,
        Bool.false_eq_true, if_neg, not_false_eq_true]
      rw [ih n (by simp at hfuel; omega) term rest (fun x hx => hbody x (by simp [hx])) hterm]
      simp

/-- Inversion: if the loop exits, the array was a terminator-free block,
then the first terminator, then the rest; the exit state drops exactly
that prefix and the global `token` holds the terminator. -/
theorem loopRun_some_inv : ∀ (fuel : Nat) (ts : List String) expr g out,
    loopRun fuel expr ⟨ts, g⟩ = some out →
    ∃ body term rest, ts = body ++ term :: rest ∧
      (∀ t ∈ body, isTerm (some t) = false) ∧ isTerm (some term) = true ∧
      out = (expr ++ (body.map some ++ [some term]), ⟨rest, some term⟩) := by
  intro fuel
  induction fuel with
  | zero => intro ts expr g out h; exact absurd h (by simp [loopRun])
  | succ n ih =>
    intro ts expr g out h
    cases ts with
    | nil =>
      rw [show loopRun (n + 1) expr ⟨[], g⟩ = none from by
        simp only [loopRun, List.head?_nil, List.tail_nil, isTerm]
        exact loopRun_nil n _ _] at h
      exact absurd h (by simp)
    | cons t ts' =>
      by_cases ht : isTerm (some t) = true
      · refine ⟨[], t, ts', by simp, by simp, ht, ?_⟩
        simp only [loopRun, List.head?_cons, List.tail_cons, ht, if_pos] at h
        simp at h
        simp [← h]
      · have ht' : isTerm (some t) = false := by simpa using ht
        simp only [loopRun, List.head?_cons, List.tail_cons, ht', Bool.false_eq_true,
          if_neg, not_false_eq_true] at h
        obtain ⟨body, term, rest, hts, hbody, hterm, hout⟩ := ih ts' (expr ++ [some t]) t out h
        refine ⟨t :: body, term, rest, by simp [hts], ?_, hterm, by simp [hout]⟩
        intro x hx
        rcases List.mem_cons.mp hx with hx | hx
        · simpa [hx] using ht'
        · exact hbody x hx

/-- Run helper: on a stream `head :: body ++ term :: rest` with `body`
terminator-free and `term` a terminator, the rule returns the fixed node,
leaves `rest`, and sets the global `token` to `term`. -/
theorem let_declaration_run (head : String) (body : List String) (term : String)
    (rest : List String) (g : Option String)
    (hbody : ∀ t ∈ body, isTerm (some t) = false) (hterm : isTerm (some term) = true)
    (fuel : Nat) (hfuel : body.length + 1 ≤ fuel) :
    let_declaration fuel ⟨head :: (body ++ term :: rest), g⟩ =
      some (letNode, ⟨rest, some term⟩) := by
  simp only [let_declaration, List.head?_cons, List.tail_cons]
  rw [loopRun_run body fuel hfuel term rest hbody hterm]

/-- Divergence helper: when nothing after the head is a terminator, the
rule exits within no fuel bound (the source loops unboundedly). -/
theorem let_declaration_noTerm (head : String) (ts : List String) (g : Option String)
    (hts : ∀ t ∈ ts, isTerm (some t) = false) (fuel : Nat) :
    let_declaration fuel ⟨head :: ts, g⟩ = none := by
  simp only [let_declaration, List.head?_cons, List.tail_cons]
  rw [loopRun_noTerm fuel ts _ g hts]

/-- Inversion helper: every return of the rule comes from a stream of the
shape `head :: body ++ term :: rest` with `body` terminator-free and
`term` the first terminator, returns the fixed node, leaves `rest`, and
sets the global `token` to `term`. -/
theorem let_declaration_some_inv (fuel : Nat) (s : PState) (out : DeclarationNode × PState)
    (h : let_declaration fuel s = some out) :
    ∃ head body term rest, s.tokens = head :: (body ++ term :: rest) ∧
      (∀ t ∈ body, isTerm (some t) = false) ∧ isTerm (some term) = true ∧
      out = (letNode, ⟨rest, some term⟩) := by
  obtain ⟨ts, g⟩ := s
  cases ts with
  | nil =>
    rw [show let_declaration fuel ⟨[], g⟩ = none from by
      simp only [let_declaration, List.head?_nil, List.tail_nil]
      rw [loopRun_nil fuel _ g]] at h
    exact absurd h (by simp)
  | cons hd ts' =>
    simp only [let_declaration, List.head?_cons, List.tail_cons] at h
    cases hl : loopRun fuel [some hd] ⟨ts', g⟩ with
    | none => rw [hl] at h; exact absurd h (by simp)
    | some p =>
      rw [hl] at h
      obtain ⟨body, term, rest, hts, hbody, hterm, hp⟩ :=
        loopRun_some_inv fuel ts' [some hd] g p hl
      refine ⟨hd, body, term, rest, by simp [hts], hbody, hterm, ?_⟩
      simp only [hp] at h
      simp at h
      simp [← h]

/-- C1: for every stream `[head, t1, ..., tn, terminator, ...rest]` where
none of `t1..tn` is a terminator kind ("EOF" or newline) and `terminator`
is, `match` consumes exactly the first n+2 tokens (head through the
terminator, inclusive) and leaves `rest` unchanged at the stream front. -/
theorem C1_match_consumes_one_declaration (head : String) (body : List String)
    (term : String) (rest : List String) (g : Option String)
    (hbody : ∀ t ∈ body, isTerm (some t) = false) (hterm : isTerm (some term) = true)
    (fuel : Nat) (hfuel : body.length + 1 ≤ fuel) :
    let_declaration fuel ⟨head :: (body ++ term :: rest), g⟩ =
      some (letNode, ⟨rest, some term⟩) :=
  let_declaration_run head body term rest g hbody hterm fuel hfuel

/-- C1 witness: on `["let", "a", "\n", "z"]` the rule consumes the first
three tokens and leaves `["z"]`. -/
theorem C1_match_consumes_one_declaration_witness :
    let_declaration 2 ⟨["let", "a", "\n", "z"], none⟩ =
      some (letNode, ⟨["z"], some "\n"⟩) := by
  simpa using C1_match_consumes_one_declaration "let" ["a"] "\n" ["z"] none
    (by decide) (by decide) 2 (by decide)

/-- C2: on a stream whose remainder after the head holds no terminator,
the source never returns: the loop exits within no fuel bound (it shifts
`undefined` forever instead of failing with `StreamExhausted` as the spec
requires). -/
theorem C2_match_no_terminator_never_returns (head : String) (ts : List String)
    (g : Option String) (hts : ∀ t ∈ ts, isTerm (some t) = false) (fuel : Nat) :
    let_declaration fuel ⟨head :: ts, g⟩ = none :=
  let_declaration_noTerm head ts g hts fuel

/-- C2 witness: on the one-token stream `["let"]` the rule returns within
no fuel bound, here 7. -/
theorem C2_match_no_terminator_never_returns_witness :
    let_declaration 7 ⟨["let"], none⟩ = none :=
  C2_match_no_terminator_never_returns "let" [] none (by decide) 7

/-- C3: whenever the rule returns, the returned node is exactly the fixed
record with discriminator "let_declaration", name "x" and value 5,
independent of the consumed token content. -/
theorem C3_match_returns_fixed_node (fuel : Nat) (s : PState)
    (node : DeclarationNode) (s' : PState)
    (h : let_declaration fuel s = some (node, s')) :
    node = ⟨"let_declaration", "x", 5⟩ := by
  obtain ⟨_, _, _, _, _, _, _, hout⟩ := let_declaration_some_inv fuel s (node, s') h
  simpa [letNode] using congrArg Prod.fst hout

/-- C3 witness: instantiated on `["let", "EOF"]`. -/
theorem C3_match_returns_fixed_node_witness :
    (letNode : DeclarationNode) = ⟨"let_declaration", "x", 5⟩ :=
  C3_match_returns_fixed_node 1 ⟨["let", "EOF"], none⟩ letNode ⟨[], some "EOF"⟩ (by decide)

/-- C4 counterexample: the rule does write global state. On the stream
`["let", "EOF"]` with the global `token` initially undefined (`none`),
the call returns with the global overwritten to `some "EOF"`: the final
global differs from the initial one, so mutation of the stream is not the
only observable side effect. -/
theorem C4_match_writes_global_counterexample :
    let_declaration 1 ⟨["let", "EOF"], none⟩ = some (letNode, ⟨[], some "EOF"⟩) ∧
    (⟨[], some "EOF"⟩ : PState).token ≠ (⟨["let", "EOF"], none⟩ : PState).token := by
  exact ⟨by decide, by decide⟩

/-- C4 amended: the observable effects of a returning call are exactly
the removal of the consumed prefix from the caller-owned stream and the
overwrite of the global variable `token` with the last removed token; the
rule performs no I/O and touches no other state. -/
theorem C4_match_frame (fuel : Nat) (s : PState) (node : DeclarationNode) (s' : PState)
    (h : let_declaration fuel s = some (node, s')) :
    ∃ pre, pre ≠ [] ∧ s.tokens = pre ++ s'.tokens ∧ s'.token = pre.getLast? := by
  obtain ⟨head, body, term, rest, hts, _, _, hout⟩ :=
    let_declaration_some_inv fuel s (node, s') h
  have hs' : s' = ⟨rest, some term⟩ := congrArg Prod.snd hout
  refine ⟨head :: (body ++ [term]), by simp, ?_, ?_⟩
  · rw [hts, hs']; simp
  · rw [hs']
    have hl : ((head :: body) ++ [term]).getLast? = some term := by
      rw [List.getLast?_append_cons]
      rfl
    simpa using hl.symm

/-- C4 amended witness: instantiated on `["let", "EOF"]` with consumed
prefix `["let", "EOF"]`. -/
theorem C4_match_frame_witness :
    ∃ pre, pre ≠ [] ∧ (["let", "EOF"] : List String) = pre ++ ([] : List String) ∧
      (some "EOF" : Option String) = pre.getLast? :=
  C4_match_frame 1 ⟨["let", "EOF"], none⟩ letNode ⟨[], some "EOF"⟩ (by decide)

/-- C5: every returning call has consumed at least two tokens (head plus
terminator); in particular the boundary stream `[head, terminator]` is
valid and consumes exactly 2 tokens, leaving the stream empty. -/
theorem C5_match_consumes_at_least_two :
    (∀ (fuel : Nat) (s : PState) (out : DeclarationNode × PState),
      let_declaration fuel s = some out →
        (out.2).tokens.length + 2 ≤ s.tokens.length) ∧
    (∀ (head term : String) (g : Option String), isTerm (some term) = true →
      ∀ fuel, 1 ≤ fuel →
        let_declaration fuel ⟨[head, term], g⟩ = some (letNode, ⟨[], some term⟩)) := by
  constructor
  · intro fuel s out h
    obtain ⟨head, body, term, rest, hts, _, _, hout⟩ :=
      let_declaration_some_inv fuel s out h
    have hs' : out.2 = ⟨rest, some term⟩ := congrArg Prod.snd hout
    rw [hts, hs']
    simp
  · intro head term g hterm fuel hfuel
    simpa using let_declaration_run head [] term [] g (by simp) hterm fuel
      (by simpa using hfuel)

/-- C5 witness: on `["let", "EOF"]` both parts hold concretely: 0 + 2 ≤ 2
and the call consumes exactly the two tokens. -/
theorem C5_match_consumes_at_least_two_witness :
    ((⟨[], some "EOF"⟩ : PState).tokens.length + 2 ≤
      (⟨["let", "EOF"], none⟩ : PState).tokens.length) ∧
    let_declaration 1 ⟨["let", "EOF"], none⟩ = some (letNode, ⟨[], some "EOF"⟩) :=
  ⟨C5_match_consumes_at_least_two.1 1 ⟨["let", "EOF"], none⟩ (letNode, ⟨[], some "EOF"⟩)
      (by decide),
    C5_match_consumes_at_least_two.2 "let" "EOF" none (by decide) 1 (by decide)⟩

/-- C6: on a stream holding two consecutive well-formed declarations
followed by `rest`, two successive calls consume each declaration exactly
once, in order, with no overlap: the first call leaves the second
declaration and `rest`, the second call leaves exactly `rest`. -/
theorem C6_match_twice_consumes_in_order (h1 : String) (b1 : List String) (t1 : String)
    (h2 : String) (b2 : List String) (t2 : String) (rest : List String) (g : Option String)
    (hb1 : ∀ t ∈ b1, isTerm (some t) = false) (ht1 : isTerm (some t1) = true)
    (hb2 : ∀ t ∈ b2, isTerm (some t) = false) (ht2 : isTerm (some t2) = true)
    (f1 f2 : Nat) (hf1 : b1.length + 1 ≤ f1) (hf2 : b2.length + 1 ≤ f2) :
    let_declaration f1 ⟨h1 :: (b1 ++ t1 :: (h2 :: (b2 ++ t2 :: rest))), g⟩ =
      some (letNode, ⟨h2 :: (b2 ++ t2 :: rest), some t1⟩) ∧
    let_declaration f2 ⟨h2 :: (b2 ++ t2 :: rest), some t1⟩ =
      some (letNode, ⟨rest, some t2⟩) :=
  ⟨let_declaration_run h1 b1 t1 (h2 :: (b2 ++ t2 :: rest)) g hb1 ht1 f1 hf1,
    let_declaration_run h2 b2 t2 rest (some t1) hb2 ht2 f2 hf2⟩

/-- C6 witness: on `["let", "a", "\n", "let", "b", "EOF"]` the first call
leaves `["let", "b", "EOF"]` and the second leaves `[]`. -/
theorem C6_match_twice_consumes_in_order_witness :
    let_declaration 2 ⟨["let", "a", "\n", "let", "b", "EOF"], none⟩ =
      some (letNode, ⟨["let", "b", "EOF"], some "\n"⟩) ∧
    let_declaration 2 ⟨["let", "b", "EOF"], some "\n"⟩ =
      some (letNode, ⟨[], some "EOF"⟩) := by
  simpa using C6_match_twice_consumes_in_order "let" ["a"] "\n" "let" ["b"] "EOF" [] none
    (by decide) (by decide) (by decide) (by decide) 2 2 (by decide) (by decide)

/-- C7: on `["let", "IDENT:x", "=", "5", "EOF"]` the rule consumes all 5
tokens, returns the node with discriminator "let_declaration", name "x"
and value 5, and leaves the stream empty; on `["let", "\n", "next1"]` it
consumes the first 2 tokens and leaves `["next1"]`. -/
theorem C7_match_concrete_scenarios (fuel : Nat) (hfuel : 4 ≤ fuel) (g : Option String) :
    let_declaration fuel ⟨["let", "IDENT:x", "=", "5", "EOF"], g⟩ =
      some (⟨"let_declaration", "x", 5⟩, ⟨[], some "EOF"⟩) ∧
    let_declaration fuel ⟨["let", "\n", "next1"], g⟩ =
      some (⟨"let_declaration", "x", 5⟩, ⟨["next1"], some "\n"⟩) := by
  constructor
  · simpa [letNode] using let_declaration_run "let" ["IDENT:x", "=", "5"] "EOF" [] g
      (by decide) (by decide) fuel (by simpa using hfuel)
  · simpa [letNode] using let_declaration_run "let" [] "\n" ["next1"] g
      (by decide) (by decide) fuel (by simp; omega)

/-- C7 witness: instantiated at fuel 4 with the global initially
undefined. -/
theorem C7_match_concrete_scenarios_witness :
    let_declaration 4 ⟨["let", "IDENT:x", "=", "5", "EOF"], none⟩ =
      some (⟨"let_declaration", "x", 5⟩, ⟨[], some "EOF"⟩) ∧
    let_declaration 4 ⟨["let", "\n", "next1"], none⟩ =
      some (⟨"let_declaration", "x", 5⟩, ⟨["next1"], some "\n"⟩) :=
  C7_match_concrete_scenarios 4 (by decide) none

/-- The loop never reads the incoming value of the global `token`; it
only writes it. -/
theorem loopRun_token_irrel (fuel : Nat) (expr : List (Option String)) (ts : List String)
    (g g' : Option String) : loopRun fuel expr ⟨ts, g⟩ = loopRun fuel expr ⟨ts, g'⟩ := by
  cases fuel <;> rfl

/-- C8: whenever the remainder after the head token holds a terminator,
the rule terminates: the loop completes by reaching the first such
terminator, within fuel one more than the terminator-free block before
it. On a stream with no terminator, however, the source loop exits
within no fuel bound: it does loop unboundedly, against the spec. -/
theorem C8_match_terminates_iff_terminator :
    (∀ (head : String) (body : List String) (term : String) (rest : List String)
        (g : Option String), (∀ t ∈ body, isTerm (some t) = false) →
      isTerm (some term) = true →
      ∃ out, let_declaration (body.length + 1) ⟨head :: (body ++ term :: rest), g⟩ =
        some out) ∧
    (∀ fuel, let_declaration fuel ⟨["let", "a"], none⟩ = none) := by
  constructor
  · intro head body term rest g hbody hterm
    exact ⟨(letNode, ⟨rest, some term⟩),
      let_declaration_run head body term rest g hbody hterm (body.length + 1) (by omega)⟩
  · intro fuel
    exact let_declaration_noTerm "let" ["a"] none (by decide) fuel

/-- C8 witness: the terminator-bearing stream `["x", "EOF"]` returns at
fuel 1; the terminator-free stream `["let", "a"]` returns at no fuel,
here 3. -/
theorem C8_match_terminates_iff_terminator_witness :
    (∃ out, let_declaration 1 ⟨["x", "EOF"], none⟩ = some out) ∧
    let_declaration 3 ⟨["let", "a"], none⟩ = none :=
  ⟨C8_match_terminates_iff_terminator.1 "x" [] "EOF" [] none (by simp) (by decide),
    C8_match_terminates_iff_terminator.2 3⟩

/-- C9: after every returning call, the global variable `token` holds the
last token removed from the stream — the terminator that ended
consumption — and the call overwrites it regardless of its incoming
value: the result is the same for every initial value of the global. -/
theorem C9_global_token_holds_terminator (fuel : Nat) (ts : List String) (g : Option String)
    (out : DeclarationNode × PState) (h : let_declaration fuel ⟨ts, g⟩ = some out) :
    isTerm ((out.2).token) = true ∧
    (∃ pre, ts = pre ++ (out.2).tokens ∧ (out.2).token = pre.getLast?) ∧
    (∀ g', let_declaration fuel ⟨ts, g'⟩ = some out) := by
  obtain ⟨head, body, term, rest, hts, _, hterm, hout⟩ :=
    let_declaration_some_inv fuel ⟨ts, g⟩ out h
  have hs' : out.2 = ⟨rest, some term⟩ := congrArg Prod.snd hout
  refine ⟨by rw [hs']; exact hterm, ⟨head :: (body ++ [term]), ?_, ?_⟩, ?_⟩
  · simp only [PState.tokens] at hts
    rw [hts, hs']
    simp
  · rw [hs']
    have hl : ((head :: body) ++ [term]).getLast? = some term := by
      rw [List.getLast?_append_cons]
      rfl
    simpa using hl.symm
  · intro g'
    rw [← h]
    simp only [let_declaration]
    rw [loopRun_token_irrel fuel _ _ g' g]

/-- C9 witness: on `["let", "EOF"]` starting from an undefined global. -/
theorem C9_global_token_holds_terminator_witness :
    isTerm ((⟨[], some "EOF"⟩ : PState).token) = true ∧
    (∃ pre, (["let", "EOF"] : List String) = pre ++ ([] : List String) ∧
      (some "EOF" : Option String) = pre.getLast?) ∧
    (∀ g', let_declaration 1 ⟨["let", "EOF"], g'⟩ = some (letNode, ⟨[], some "EOF"⟩)) :=
  C9_global_token_holds_terminator 1 ["let", "EOF"] none (letNode, ⟨[], some "EOF"⟩)
    (by decide)

/-- C10: the head token is shifted without being tested against the
terminator kinds. When the head is itself a terminator, it is still
consumed as the head, and consumption continues past any terminator-free
body tokens until a second terminator occurrence is removed; only then
does the rule return, leaving the tokens after that second occurrence.
The hypothesis on the head is never used by the proof: the code ignores
the head's kind entirely. -/
theorem C10_head_consumed_untested (head : String) (hhead : isTerm (some head) = true)
    (body : List String) (term : String) (rest : List String) (g : Option String)
    (hbody : ∀ t ∈ body, isTerm (some t) = false) (hterm : isTerm (some term) = true)
    (fuel : Nat) (hfuel : body.length + 1 ≤ fuel) :
    let_declaration fuel ⟨head :: (body ++ term :: rest), g⟩ =
      some (letNode, ⟨rest, some term⟩) :=
  let_declaration_run head body term rest g hbody hterm fuel hfuel

/-- C10 witness: on `["\n", "a", "EOF"]` the terminator head is consumed
untested, consumption continues through "a" until the second terminator
occurrence "EOF" is removed, and the stream is left empty. -/
theorem C10_head_consumed_untested_witness :
    let_declaration 2 ⟨["\n", "a", "EOF"], none⟩ = some (letNode, ⟨[], some "EOF"⟩) := by
  simpa using C10_head_consumed_untested "\n" (by decide) ["a"] "EOF" [] none
    (by decide) (by decide) 2 (by decide)

end Grammar
